import Mathlib

/-!
Verification of the evolutionary-optimization repository (genetic_optimizer /
pareto_analyzer / java_interface / solution_analyzer) against its
natural-language specification.  Python code is shallowly embedded: pure
functions become Lean functions, the mutable `GeneticOptimizer` bookkeeping
becomes explicit state passing over a `Registry` record, randomness becomes an
explicit stream of rational draws, and the fallible HTTP oracle becomes an
explicit outcome type.  Float KPI values (which include IEEE infinities used
as sentinels) are embedded as `PVal`: a rational together with the two
infinities; the program never produces NaN on the modelled paths.
-/

/-- A Python float value as used by the program: a finite (rational) value or
one of the two infinities (`float('inf')`, `-float('inf')`).  NaN never arises
on the modelled code paths. -/
inductive PVal where
  | rat (q : ℚ)
  | pinf
  | ninf
  deriving DecidableEq, Repr

/-- Strict `<` on embedded floats, mirroring IEEE comparison on non-NaN
values: `-inf` is below every other value and `+inf` above every other. -/
def PVal.ltB : PVal → PVal → Bool
  | .ninf, .ninf => false
  | .ninf, _ => true
  | .rat _, .ninf => false
  | .rat a, .rat b => decide (a < b)
  | .rat _, .pinf => true
  | .pinf, _ => false

/-- Non-strict `≤` on embedded floats (total order, no NaN). -/
def PVal.leB (a b : PVal) : Bool := !(PVal.ltB b a)

theorem PVal.ltB_irrefl (a : PVal) : PVal.ltB a a = false := by
  cases a <;> simp [PVal.ltB]

theorem PVal.not_ltB_ninf (a : PVal) : PVal.ltB a .ninf = false := by
  cases a <;> simp [PVal.ltB]

theorem PVal.not_pinf_ltB (a : PVal) : PVal.ltB .pinf a = false := by
  cases a <;> simp [PVal.ltB]

theorem PVal.ninf_ltB (a : PVal) (h : a ≠ .ninf) : PVal.ltB .ninf a = true := by
  cases a <;> simp_all [PVal.ltB]

theorem PVal.ltB_pinf (a : PVal) (h : a ≠ .pinf) : PVal.ltB a .pinf = true := by
  cases a <;> simp_all [PVal.ltB]

/-! ## Embedding of `pareto_analyzer.py` (`ParetoAnalyzer`) -/

/-- The five KPI column names, from `ParetoAnalyzer.__init__` (`kpi_names`). -/
def kpiNames : List String :=
  ["vesselsHandledQtt", "primeCost", "handlingTime", "profit", "timeAtTerminal"]

/-- Column names treated as maximize objectives by
`identify_pareto_frontier` (the literal list on its line 86); every other
column name is treated as a minimize objective. -/
def isMaxName (obj : String) : Bool :=
  obj == "vesselsHandledQtt" || obj == "profit"

/-- The inner dominance check of `identify_pareto_frontier` (lines 84-95):
row `j` "dominates" row `i` when, for every requested objective column, `j` is
not worse than `i` in that column's direction.  Note the source has no
strict-improvement requirement.  `val r obj` embeds `df.iloc[r][obj]`
(dataframe column indexing). -/
def dominatesW {ρ : Type} (objectives : List String) (val : ρ → String → PVal)
    (j i : ρ) : Bool :=
  objectives.all fun obj =>
    if isMaxName obj then !(PVal.ltB (val j obj) (val i obj))
    else !(PVal.ltB (val i obj) (val j obj))

/-- `ParetoAnalyzer.identify_pareto_frontier` (lines 63-101): keep exactly the
rows `i` for which no other row `j` (by index, `i != j`) dominates `i` in the
weak sense of `dominatesW`; row order is preserved, as with the boolean mask
`df[pareto_mask]`. -/
def identifyParetoFrontier {ρ : Type} (objectives : List String)
    (val : ρ → String → PVal) (df : List ρ) : List ρ :=
  (df.enum.filter fun p =>
    df.enum.all fun q =>
      q.1 == p.1 || !(dominatesW objectives val q.2 p.2)).map Prod.snd

/-- A dataframe row: an association list from column name to value, as built
by `extract_pareto_data` (parameters merged with the five named KPIs). -/
def Row : Type := List (String × PVal)

instance : DecidableEq Row := by unfold Row; infer_instance

/-- Embeds `df.iloc[r][obj]` for rows represented as association lists; on
the modelled frames every requested objective column is present, so the
fallback value is never consulted. -/
def rowVal (r : Row) (obj : String) : PVal := (List.lookup obj r).getD (.rat 0)

/-- The paragraph-8 tie scenario: one auxiliary column `x` and objective
column `y` with values 5, 2, 2, 8; the two middle rows tie at the minimum
`y = 2` and differ only in `x`. -/
def tieScenarioRows : List Row :=
  [[("x", .rat 1), ("y", .rat 5)],
   [("x", .rat 2), ("y", .rat 2)],
   [("x", .rat 3), ("y", .rat 2)],
   [("x", .rat 4), ("y", .rat 8)]]

/-- Claim C1: in the tie scenario (one objective, minimize `y`, values
5, 2, 2, 8), `identify_pareto_frontier` is claimed to return both rows with
`y = 2`.  Evaluating the embedded extractor at that input shows it returns
the empty frame instead: because the dominance check has no
strict-improvement requirement, each tied minimal row weakly dominates the
other and both are masked out (and the `y = 5`, `y = 8` rows are dominated
as well). -/
theorem C1_tie_scenario_returns_empty_front :
    identifyParetoFrontier ["y"] rowVal tieScenarioRows = []
      ∧ rowVal (tieScenarioRows.get ⟨1, by decide⟩) "y" = .rat 2
      ∧ rowVal (tieScenarioRows.get ⟨2, by decide⟩) "y" = .rat 2 := by
  decide

/-- Claim C2: the dominance relation used by `identify_pareto_frontier` is
claimed to be irreflexive and asymmetric.  Evaluating the embedded relation
on two rows with identical objective values (the claimed "in particular"
case) shows each dominates the other, and a row even dominates itself; the
relation implemented is weak dominance, which is reflexive and not
asymmetric. -/
theorem C2_weak_dominance_not_asymmetric :
    dominatesW ["y"] rowVal [("x", .rat 1), ("y", .rat 2)]
        [("x", .rat 2), ("y", .rat 2)] = true
      ∧ dominatesW ["y"] rowVal [("x", .rat 2), ("y", .rat 2)]
        [("x", .rat 1), ("y", .rat 2)] = true
      ∧ dominatesW ["y"] rowVal [("x", .rat 1), ("y", .rat 2)]
        [("x", .rat 1), ("y", .rat 2)] = true
      ∧ ([("x", .rat 1), ("y", .rat 2)] : Row) ≠ [("x", .rat 2), ("y", .rat 2)] := by
  decide

/-! ## Embedding of `python/genetic_optimizer.py` (`GeneticOptimizer`) -/

/-- Direction tag of one objective. -/
inductive ObjDir where
  | maxObj
  | minObj
  deriving DecidableEq, Repr

/-- The five objective directions of `GeneticOptimizer.objectives`
(maximize vessels, minimize prime cost, minimize handling time, maximize
profit, minimize time at terminal); identical to the DEAP fitness weights
`(1.0, -1.0, -1.0, 1.0, -1.0)` registered in `_setup_genetic_algorithm`. -/
def objDirs : List ObjDir :=
  [.maxObj, .minObj, .minObj, .maxObj, .minObj]

/-- Weak per-objective comparison: `x` at least as good as `y` in direction
`d`. -/
def weakBetter (d : ObjDir) (x y : PVal) : Bool :=
  match d with
  | .maxObj => PVal.leB y x
  | .minObj => PVal.leB x y

/-- Strict per-objective comparison: `x` strictly better than `y` in
direction `d`. -/
def strictBetter (d : ObjDir) (x y : PVal) : Bool :=
  match d with
  | .maxObj => PVal.ltB y x
  | .minObj => PVal.ltB x y

/-- Pareto dominance as used by the live DEAP archive
(`deap.base.Fitness.dominates`, with the weights registered in
`_setup_genetic_algorithm`): `a` dominates `b` iff `a` is at least as good on
every objective and strictly better on at least one.  This is also the
dominance rule of spec paragraph 4.5. -/
def deapDominates (dirs : List ObjDir) (a b : List PVal) : Bool :=
  let z := dirs.zip (a.zip b)
  (z.all fun t => weakBetter t.1 t.2.1 t.2.2)
    && (z.any fun t => strictBetter t.1 t.2.1 t.2.2)

/-- The eight gene names with their inclusive integer bounds, from
`GeneticOptimizer.parameter_bounds` (in dict order, which is also the gene
order used by `_individual_to_parameters` and `_mutate_individual`). -/
def parameterBounds : List (String × ℤ × ℤ) :=
  [("varOfWork", 3, 3),
   ("capacityOfMainConveyor", 800, 1200),
   ("quantityOfVagonsToSilageAtOnce", 8, 10),
   ("quantityOfVehicleDischargeStations", 2, 4),
   ("numberOfVehicleSilages", 2, 4),
   ("capacityOfVehicleSilages", 800, 1000),
   ("quantityOfSilages", 18, 20),
   ("yearsModelWorking", 1, 1)]

/-- `GeneticOptimizer._individual_to_parameters`: the positional genome list
becomes the named parameter dictionary, genes in the fixed order of
`parameter_bounds`. -/
def indToParams (g : List ℤ) : List (String × ℤ) :=
  [("varOfWork", g.getD 0 0),
   ("capacityOfMainConveyor", g.getD 1 0),
   ("quantityOfVagonsToSilageAtOnce", g.getD 2 0),
   ("quantityOfVehicleDischargeStations", g.getD 3 0),
   ("numberOfVehicleSilages", g.getD 4 0),
   ("capacityOfVehicleSilages", g.getD 5 0),
   ("quantityOfSilages", g.getD 6 0),
   ("yearsModelWorking", g.getD 7 0)]

/-- An archive member: its parameter dictionary and its five fitness
values. -/
structure Ind where
  params : List (String × ℤ)
  fit : List PVal
  deriving DecidableEq, Repr

/-- Modelled from the spec: the `ParetoArchive` invariant of spec paragraph 3
for the engine's final archive (the DEAP `ParetoFront` hall of fame built by
`optimize`, whose library source is not part of this repository): no member
dominates another (dominance of paragraph 4.5, embedded as `deapDominates`)
and no two members share an identical genome. -/
def isParetoArchive (arch : List Ind) : Bool :=
  match arch with
  | [] => true
  | a :: rest =>
      (rest.all fun b =>
        !(deapDominates objDirs a.fit b.fit)
          && !(deapDominates objDirs b.fit a.fit)
          && decide (a.params ≠ b.params))
        && isParetoArchive rest

/-- `ParetoAnalyzer.extract_pareto_data` row construction: a stored solution
becomes a dataframe row holding its parameter columns followed by the five
named KPI columns. -/
def toRow (ind : Ind) : Row :=
  ind.params.map (fun p => (p.1, PVal.rat p.2)) ++ kpiNames.zip ind.fit

/-- A realizable final archive with a fitness tie: two members with distinct
genomes (different `capacityOfMainConveyor`) but identical five-objective
fitness vectors; neither dominates the other under the strict archive rule,
so the DEAP hall of fame retains both. -/
def tiedArchive : List Ind :=
  [⟨indToParams [3, 800, 8, 2, 2, 800, 18, 1],
    [.rat 10, .rat 5, .rat 7, .rat 100, .rat 4]⟩,
   ⟨indToParams [3, 900, 8, 2, 2, 800, 18, 1],
    [.rat 10, .rat 5, .rat 7, .rat 100, .rat 4]⟩]

/-- Claim C3: running `identify_pareto_frontier` with the full five-objective
set over the engine's own final archive is claimed to reproduce the archive
membership exactly.  Evaluating the embedding on a valid archive
(`tiedArchive` satisfies the archive invariant: mutually non-dominated,
distinct genomes) shows the extractor instead returns the empty frame: the
two fitness-tied members weakly dominate each other and are both removed. -/
theorem C3_extractor_empties_tied_archive :
    isParetoArchive tiedArchive = true
      ∧ identifyParetoFrontier kpiNames rowVal (tiedArchive.map toRow) = []
      ∧ tiedArchive.length = 2 := by
  decide

/-! ## Solution registry (`_get_or_create_solution_id` and friends) -/

/-- A `solution_history` record as appended by `_get_or_create_solution_id`
(identifier, copied parameters, copied KPIs, wall-clock timestamp, and the
`generation` field, which the source always stores as `None`). -/
structure SolRec where
  id : String
  params : List (String × ℤ)
  kpis : List PVal
  timestamp : String
  generation : Option ℕ
  deriving DecidableEq, Repr

/-- The mutable ID-tracking state of `GeneticOptimizer` (`solution_counter`,
`solution_ids`, `solution_history`).  The `solution_ids` dict is embedded as
an association list from hash key to identifier (keys are inserted only when
absent, so they stay distinct). -/
structure Registry where
  counter : ℕ
  ids : List (ℤ × String)
  history : List SolRec
  deriving DecidableEq, Repr

/-- The initial state set in `__init__`: counter 0, empty dict, empty
history. -/
def regInit : Registry := ⟨0, [], []⟩

/-- Lexicographic string comparison on the underlying character codes
(what Python's tuple ordering over the gene names computes). -/
def charsLe : List Char → List Char → Bool
  | [], _ => true
  | _ :: _, [] => false
  | c :: cs, d :: ds =>
      if c.toNat < d.toNat then true
      else if d.toNat < c.toNat then false
      else charsLe cs ds

/-- Stable insertion of one pair into a name-sorted list. -/
def insertSorted (x : String × ℤ) : List (String × ℤ) → List (String × ℤ)
  | [] => [x]
  | y :: ys => if charsLe x.1.data y.1.data then x :: y :: ys
               else y :: insertSorted x ys

/-- `sorted(parameters.items())`: the parameter pairs in ascending name
order (gene names are distinct, so the value component never decides). -/
def canonKey : List (String × ℤ) → List (String × ℤ)
  | [] => []
  | x :: xs => insertSorted x (canonKey xs)

/-- `f"SOL_{n:06d}"`: the decimal digits of `n` left-padded with zeros to
width six, after the fixed prefix. -/
def solId (n : ℕ) : String :=
  let s := toString n
  "SOL_" ++ String.mk (List.replicate (6 - s.length) '0') ++ s

/-- `GeneticOptimizer._get_or_create_solution_id` (lines 163-183).  The
Python built-in `hash` of the sorted parameter tuple is embedded as an
explicit function argument `h` (CPython randomizes string hashing per
process, so the concrete function varies from run to run and is not
guaranteed injective); everything else follows the source: a known key
returns its stored identifier unchanged, a fresh key advances the counter,
formats the new identifier, stores it in the dict and appends a history
record whose `generation` is `None`. -/
def getOrCreate (h : List (String × ℤ) → ℤ) (st : Registry)
    (p : List (String × ℤ)) (kpis : List PVal) (now : String) :
    Registry × String :=
  let k := h (canonKey p)
  match List.lookup k st.ids with
  | some id => (st, id)
  | none =>
      let c := st.counter + 1
      let id := solId c
      (⟨c, st.ids ++ [(k, id)], st.history ++ [⟨id, p, kpis, now, none⟩]⟩, id)

/-- One evaluation event: the genome's parameter dictionary, its KPI list
and the timestamp for the history record. -/
def RunEv : Type := List (String × ℤ) × List PVal × String

/-- A sequence of successful evaluations within one run: thread the registry
through `_get_or_create_solution_id` and collect the identifiers returned. -/
def evalAll (h : List (String × ℤ) → ℤ) (st : Registry) :
    List RunEv → Registry × List String
  | [] => (st, [])
  | (p, kpis, now) :: rest =>
      let r := getOrCreate h st p kpis now
      let rr := evalAll h r.1 rest
      (rr.1, r.2 :: rr.2)

theorem lookup_append_of_none {α β : Type} [BEq α] (a : α)
    (l l2 : List (α × β)) (h : List.lookup a l = none) :
    List.lookup a (l ++ l2) = List.lookup a l2 := by
  induction l with
  | nil => simp
  | cons x xs ih =>
      rw [List.cons_append, List.lookup_cons]
      rw [List.lookup_cons] at h
      cases hx : (a == x.1) with
      | true => simp [hx] at h
      | false => simp [hx] at h ⊢; exact ih h

theorem evalAll_fresh (h : List (String × ℤ) → ℤ) (gs : List RunEv) :
    ∀ st : Registry,
    (∀ g ∈ gs, List.lookup (h (canonKey g.1)) st.ids = none) →
    gs.Pairwise (fun a b => h (canonKey a.1) ≠ h (canonKey b.1)) →
    (evalAll h st gs).1.counter = st.counter + gs.length ∧
    (evalAll h st gs).1.history.length = st.history.length + gs.length ∧
    (evalAll h st gs).2 =
      (List.range gs.length).map (fun k => solId (st.counter + k + 1)) := by
  induction gs with
  | nil => intro st _ _; simp [evalAll]
  | cons g rest ih =>
      obtain ⟨p, kpis, now⟩ := g
      intro st hfresh hpw
      have hk : List.lookup (h (canonKey p)) st.ids = none :=
        hfresh (p, kpis, now) (List.mem_cons_self _ _)
      rw [List.pairwise_cons] at hpw
      have hstep : getOrCreate h st p kpis now =
          (⟨st.counter + 1,
            st.ids ++ [(h (canonKey p), solId (st.counter + 1))],
            st.history ++ [⟨solId (st.counter + 1), p, kpis, now, none⟩]⟩,
           solId (st.counter + 1)) := by
        simp [getOrCreate, hk]
      have hfresh2 : ∀ g2 ∈ rest,
          List.lookup (h (canonKey g2.1))
            (st.ids ++ [(h (canonKey p), solId (st.counter + 1))]) = none := by
        intro g2 hg2
        have h1 : List.lookup (h (canonKey g2.1)) st.ids = none :=
          hfresh g2 (List.mem_cons_of_mem _ hg2)
        have hne : (h (canonKey g2.1) == h (canonKey p)) = false := by
          exact beq_eq_false_iff_ne.2 (Ne.symm (hpw.1 g2 hg2))
        rw [lookup_append_of_none _ _ _ h1]
        simp [List.lookup, hne]
      have ihx := ih ⟨st.counter + 1,
          st.ids ++ [(h (canonKey p), solId (st.counter + 1))],
          st.history ++ [⟨solId (st.counter + 1), p, kpis, now, none⟩]⟩
        hfresh2 hpw.2
      simp only [evalAll, hstep] at ihx ⊢
      obtain ⟨ih1, ih2, ih3⟩ := ihx
      refine ⟨?_, ?_, ?_⟩
      · rw [ih1, List.length_cons]; omega
      · rw [ih2, List.length_cons, List.length_append, List.length_cons,
          List.length_nil]
        omega
      · rw [ih3, List.length_cons, List.range_succ_eq_map, List.map_cons,
          List.map_map]
        refine congrArg₂ _ (by simp) ?_
        refine List.map_congr_left ?_
        intro k _
        simp [Function.comp]
        refine congrArg solId (by omega)

/-- Claim C4, counterexample.  The claim asserts that evaluating pairwise
distinct genomes always yields distinct sequential identifiers, but
`_get_or_create_solution_id` keys its dict by the Python built-in `hash` of
the sorted parameter tuple; `hash` is a seed-dependent, non-injective
function (embedded here as the explicit argument `h`).  Under a colliding
hash — here the constant function, a legal hash since equal inputs still
receive equal keys — two distinct genomes are silently merged: the second
evaluation returns the first genome's identifier, the counter stays at 1 and
only one history record exists. -/
theorem C4_distinct_genomes_can_collide :
    (indToParams [3, 800, 8, 2, 2, 800, 18, 1]
        ≠ indToParams [3, 900, 8, 2, 2, 800, 18, 1])
      ∧ (evalAll (fun _ => (0 : ℤ)) regInit
          [(indToParams [3, 800, 8, 2, 2, 800, 18, 1], [.rat 1], "t1"),
           (indToParams [3, 900, 8, 2, 2, 800, 18, 1], [.rat 2], "t2")]).2
        = ["SOL_000001", "SOL_000001"]
      ∧ (evalAll (fun _ => (0 : ℤ)) regInit
          [(indToParams [3, 800, 8, 2, 2, 800, 18, 1], [.rat 1], "t1"),
           (indToParams [3, 900, 8, 2, 2, 800, 18, 1], [.rat 2], "t2")]).1.counter
        = 1
      ∧ (evalAll (fun _ => (0 : ℤ)) regInit
          [(indToParams [3, 800, 8, 2, 2, 800, 18, 1], [.rat 1], "t1"),
           (indToParams [3, 900, 8, 2, 2, 800, 18, 1], [.rat 2], "t2")]).1.history.length
        = 1 := by
  decide

/-- Claim C4, amended: within one run, (a) calling
`_get_or_create_solution_id` again with a genome equal as (name, value)
pairs returns the same identifier and leaves counter, dict and history
untouched, unconditionally; and (b) provided the hash keys of the evaluated
genomes are pairwise distinct (the part the built-in `hash` cannot
guarantee), evaluating N pairwise distinct genomes yields the N identifiers
`SOL_000001` .. `SOL_N` (6-digit, 1-based, in evaluation order) with counter
and history length equal to N. -/
theorem C4_registry_identifier_behavior :
    (∀ (h : List (String × ℤ) → ℤ) (st : Registry) (p : List (String × ℤ))
        (k1 k2 : List PVal) (t1 t2 : String),
      getOrCreate h (getOrCreate h st p k1 t1).1 p k2 t2
        = getOrCreate h st p k1 t1)
    ∧ (∀ (h : List (String × ℤ) → ℤ) (gs : List RunEv),
        gs.Pairwise (fun a b => h (canonKey a.1) ≠ h (canonKey b.1)) →
        (evalAll h regInit gs).1.counter = gs.length
          ∧ (evalAll h regInit gs).1.history.length = gs.length
          ∧ (evalAll h regInit gs).2 =
              (List.range gs.length).map (fun k => solId (k + 1))) := by
  constructor
  · intro h st p k1 k2 t1 t2
    cases hl : List.lookup (h (canonKey p)) st.ids with
    | some id => simp [getOrCreate, hl]
    | none =>
        have h2 : List.lookup (h (canonKey p))
            (st.ids ++ [(h (canonKey p), solId (st.counter + 1))])
            = some (solId (st.counter + 1)) := by
          rw [lookup_append_of_none _ _ _ hl]
          simp [List.lookup]
        simp [getOrCreate, hl, h2]
  · intro h gs hpw
    have hx := evalAll_fresh h gs regInit (by intro g _; rfl) hpw
    refine ⟨by simpa [regInit] using hx.1, by simpa [regInit] using hx.2.1, ?_⟩
    rw [hx.2.2]
    refine List.map_congr_left ?_
    intro k _
    exact congrArg solId (by simp [regInit])

/-- Claim C4, witness: three concrete genomes differing in
`capacityOfMainConveyor`, keyed by an injective-on-these-inputs hash; the
pairwise-distinct-keys hypothesis is discharged by evaluation and the run
yields identifiers SOL_000001, SOL_000002, SOL_000003 with counter and
history length 3. -/
theorem C4_registry_identifier_behavior_witness :
    List.Pairwise
        (fun a b : RunEv =>
          (fun l => (List.lookup "capacityOfMainConveyor" l).getD 0) (canonKey a.1)
            ≠ (fun l => (List.lookup "capacityOfMainConveyor" l).getD 0) (canonKey b.1))
        [(indToParams [3, 800, 8, 2, 2, 800, 18, 1], [PVal.rat 1], "t1"),
         (indToParams [3, 900, 8, 2, 2, 800, 18, 1], [PVal.rat 2], "t2"),
         (indToParams [3, 1000, 8, 2, 2, 800, 18, 1], [PVal.rat 3], "t3")]
      ∧ (evalAll (fun l => (List.lookup "capacityOfMainConveyor" l).getD 0) regInit
          [(indToParams [3, 800, 8, 2, 2, 800, 18, 1], [PVal.rat 1], "t1"),
           (indToParams [3, 900, 8, 2, 2, 800, 18, 1], [PVal.rat 2], "t2"),
           (indToParams [3, 1000, 8, 2, 2, 800, 18, 1], [PVal.rat 3], "t3")]).1.counter = 3
      ∧ (evalAll (fun l => (List.lookup "capacityOfMainConveyor" l).getD 0) regInit
          [(indToParams [3, 800, 8, 2, 2, 800, 18, 1], [PVal.rat 1], "t1"),
           (indToParams [3, 900, 8, 2, 2, 800, 18, 1], [PVal.rat 2], "t2"),
           (indToParams [3, 1000, 8, 2, 2, 800, 18, 1], [PVal.rat 3], "t3")]).2
        = (List.range 3).map (fun k => solId (k + 1))
      ∧ (evalAll (fun l => (List.lookup "capacityOfMainConveyor" l).getD 0) regInit
          [(indToParams [3, 800, 8, 2, 2, 800, 18, 1], [PVal.rat 1], "t1"),
           (indToParams [3, 900, 8, 2, 2, 800, 18, 1], [PVal.rat 2], "t2"),
           (indToParams [3, 1000, 8, 2, 2, 800, 18, 1], [PVal.rat 3], "t3")]).2
        = ["SOL_000001", "SOL_000002", "SOL_000003"] := by
  refine ⟨by decide, ?_, ?_, by decide⟩
  · exact (C4_registry_identifier_behavior.2 _ _ (by decide)).1
  · exact (C4_registry_identifier_behavior.2 _ _ (by decide)).2.2

/-! ## Evaluation (`_evaluate_individual`) and the C9 bookkeeping invariant -/

/-- Outcome of one `java_interface.run_simulation` call as seen by
`_evaluate_individual`: a decoded KPI dictionary, the `None` failure return,
or an exception escaping the call (caught by the `except` clause of
`_evaluate_individual`). -/
inductive OracleOutcome where
  | ok (m : List (String × PVal))
  | failNone
  | raised
  deriving DecidableEq, Repr

/-- The sentinel worst fitness assigned on failure
(`(-inf, inf, inf, -inf, inf)`, lines 139 and 161). -/
def sentinelFit : List PVal := [.ninf, .pinf, .pinf, .ninf, .pinf]

/-- KPI extraction from a successful result dict (lines 142-148), with the
source's per-KPI defaults `0`, `inf`, `inf`, `-inf`, `inf`. -/
def extractKpis (m : List (String × PVal)) : List PVal :=
  [(List.lookup "vesselsHandledQtt" m).getD (.rat 0),
   (List.lookup "primeCost" m).getD .pinf,
   (List.lookup "handlingTime" m).getD .pinf,
   (List.lookup "profit" m).getD .ninf,
   (List.lookup "timeAtTerminal" m).getD .pinf]

/-- `GeneticOptimizer._evaluate_individual` (lines 128-161), with the
registry state made explicit: a `None` result or an exception yields the
sentinel fitness and touches no bookkeeping; a successful result has its
KPIs extracted, is registered via `_get_or_create_solution_id`, and the KPI
tuple is returned. -/
def evalStep (h : List (String × ℤ) → ℤ) (st : Registry)
    (p : List (String × ℤ)) (o : OracleOutcome) (now : String) :
    Registry × List PVal :=
  match o with
  | .failNone => (st, sentinelFit)
  | .raised => (st, sentinelFit)
  | .ok m =>
      let kpis := extractKpis m
      let r := getOrCreate h st p kpis now
      (r.1, kpis)

/-- Evaluation of a whole population in order: each individual's parameters
with its oracle outcome; the registry threads through, and each individual
receives a fitness. -/
def evalPopulation (h : List (String × ℤ) → ℤ) (st : Registry) :
    List (List (String × ℤ) × OracleOutcome × String) →
      Registry × List (List (String × ℤ) × List PVal)
  | [] => (st, [])
  | (p, o, now) :: rest =>
      let r := evalStep h st p o now
      let rr := evalPopulation h r.1 rest
      (rr.1, (p, r.2) :: rr.2)

/-- The C9 bookkeeping invariant over registry states. -/
def regInv (st : Registry) : Prop :=
  st.counter = st.ids.length ∧ st.ids.length = st.history.length

/-- The two counts reported in the persisted `optimization_metadata`
(`save_results` lines 235-237): `total_solutions_evaluated` is the counter,
`unique_solutions` the size of the `solution_ids` dict. -/
def metadataCounts (st : Registry) : ℕ × ℕ := (st.counter, st.ids.length)

theorem getOrCreate_inv (h : List (String × ℤ) → ℤ) (st : Registry)
    (p : List (String × ℤ)) (kpis : List PVal) (now : String)
    (hi : regInv st) : regInv (getOrCreate h st p kpis now).1 := by
  cases hl : List.lookup (h (canonKey p)) st.ids with
  | some id =>
      have he : getOrCreate h st p kpis now = (st, id) := by
        simp [getOrCreate, hl]
      rw [he]
      exact hi
  | none =>
      have he : getOrCreate h st p kpis now =
          (⟨st.counter + 1,
            st.ids ++ [(h (canonKey p), solId (st.counter + 1))],
            st.history ++ [⟨solId (st.counter + 1), p, kpis, now, none⟩]⟩,
           solId (st.counter + 1)) := by
        simp [getOrCreate, hl]
      rw [he]
      obtain ⟨h1, h2⟩ := hi
      constructor <;> simp [h1, h2]

theorem evalPopulation_inv (h : List (String × ℤ) → ℤ)
    (l : List (List (String × ℤ) × OracleOutcome × String)) :
    ∀ st : Registry, regInv st → regInv (evalPopulation h st l).1 := by
  induction l with
  | nil => intro st hi; simpa [evalPopulation] using hi
  | cons e rest ih =>
      obtain ⟨p, o, now⟩ := e
      intro st hi
      have hstep : regInv (evalStep h st p o now).1 := by
        cases o with
        | failNone => simpa [evalStep] using hi
        | raised => simpa [evalStep] using hi
        | ok m => exact getOrCreate_inv h st p (extractKpis m) now hi
      simpa [evalPopulation] using ih _ hstep

/-- Claim C9: after every evaluation the counter, the identifier dict size
and the history length agree — the counter counts distinct genome keys, not
oracle calls — so the persisted metadata's `total_solutions_evaluated`
always equals `unique_solutions`; and a failed evaluation (the `None` return
or an exception) allocates no identifier and appends no history record at
all, returning the registry untouched alongside the sentinel fitness. -/
theorem C9_counter_ids_history_agree :
    (∀ (h : List (String × ℤ) → ℤ)
        (l : List (List (String × ℤ) × OracleOutcome × String)),
      ((evalPopulation h regInit l).1.counter
          = (evalPopulation h regInit l).1.ids.length
        ∧ (evalPopulation h regInit l).1.ids.length
          = (evalPopulation h regInit l).1.history.length)
        ∧ (metadataCounts (evalPopulation h regInit l).1).1
          = (metadataCounts (evalPopulation h regInit l).1).2)
    ∧ (∀ (h : List (String × ℤ) → ℤ) (st : Registry)
        (p : List (String × ℤ)) (now : String),
      evalStep h st p .failNone now = (st, sentinelFit)
        ∧ evalStep h st p .raised now = (st, sentinelFit)) := by
  constructor
  · intro h l
    have hx := evalPopulation_inv h l regInit ⟨rfl, rfl⟩
    exact ⟨hx, hx.1⟩
  · intro h st p now
    exact ⟨rfl, rfl⟩

/-! ## Failure handling (C5): sentinel fitness and the Pareto archive -/

theorem dominates_sentinel (w : List PVal) (hlen : w.length = 5)
    (hne : w ≠ sentinelFit) : deapDominates objDirs w sentinelFit = true := by
  rcases w with _ | ⟨a, w⟩
  · simp at hlen
  rcases w with _ | ⟨b, w⟩
  · simp at hlen
  rcases w with _ | ⟨c, w⟩
  · simp at hlen
  rcases w with _ | ⟨d, w⟩
  · simp at hlen
  rcases w with _ | ⟨e, w⟩
  · simp at hlen
  rcases w with _ | ⟨f, w⟩
  swap
  · simp at hlen
  simp only [sentinelFit, ne_eq, List.cons.injEq, and_true, not_and] at hne
  simp [deapDominates, objDirs, sentinelFit, weakBetter, strictBetter,
    PVal.leB, PVal.not_ltB_ninf, PVal.not_pinf_ltB]
  by_cases ha : a = PVal.ninf
  case neg => simp [PVal.ninf_ltB a ha]
  subst ha
  by_cases hb : b = PVal.pinf
  case neg => simp [PVal.ltB_pinf b hb]
  subst hb
  by_cases hc : c = PVal.pinf
  case neg => simp [PVal.ltB_pinf c hc]
  subst hc
  by_cases hd : d = PVal.ninf
  case neg => simp [PVal.ninf_ltB d hd]
  subst hd
  by_cases he : e = PVal.pinf
  case neg => simp [PVal.ltB_pinf e he]
  subst he
  exact absurd rfl (hne rfl rfl rfl rfl)

/-- Modelled from the spec: the per-individual archive update of spec
paragraphs 3 and 4.6 (the DEAP `ParetoFront.update` hall-of-fame step, whose
library source is not part of this repository): a candidate dominated by a
current member is rejected; a candidate whose genome equals a member's is
rejected; otherwise members now dominated are dropped and the candidate is
appended. -/
def archiveUpdate (arch : List Ind) (x : Ind) : List Ind :=
  if arch.any (fun a => deapDominates objDirs a.fit x.fit) then arch
  else if arch.any (fun a => decide (a.params = x.params)) then arch
  else (arch.filter fun a => !(deapDominates objDirs x.fit a.fit)) ++ [x]

/-- Claim C5, counterexample.  The claim's unconditional "never enters the
Pareto archive" fails in the degenerate all-failures state: a failed
individual carries the sentinel fitness, and updating an empty archive
(generation 0 with every oracle call failing) inserts it. -/
theorem C5_sentinel_enters_empty_archive :
    (evalStep (fun _ => 0) regInit (indToParams [3, 800, 8, 2, 2, 800, 18, 1])
        .failNone "t").2 = sentinelFit
      ∧ archiveUpdate [] ⟨indToParams [3, 800, 8, 2, 2, 800, 18, 1], sentinelFit⟩
        = [⟨indToParams [3, 800, 8, 2, 2, 800, 18, 1], sentinelFit⟩] := by
  decide

/-- Claim C5, amended: when the oracle call fails (a `None` result or an
exception), `_evaluate_individual` returns — without raising — the sentinel
worst value on every objective, touching no bookkeeping; every length-5
fitness differing from the sentinel somewhere (i.e. with at least one valid
objective value) strictly dominates the sentinel under the engine's
dominance; consequently the failed individual never enters a Pareto archive
already containing a member with at least one valid objective value (in an
all-failures run it can still occupy the archive); and evaluation leaves the
population intact: every individual keeps its slot and genome. -/
theorem C5_failure_sentinel_behavior :
    (∀ (h : List (String × ℤ) → ℤ) (st : Registry) (p : List (String × ℤ))
        (now : String) (o : OracleOutcome),
      o = OracleOutcome.failNone ∨ o = OracleOutcome.raised →
      evalStep h st p o now = (st, sentinelFit))
    ∧ (∀ w : List PVal, w.length = 5 → w ≠ sentinelFit →
        deapDominates objDirs w sentinelFit = true)
    ∧ (∀ (arch : List Ind) (x : Ind), x.fit = sentinelFit →
        (∃ a ∈ arch, a.fit.length = 5 ∧ a.fit ≠ sentinelFit) →
        archiveUpdate arch x = arch)
    ∧ (∀ (h : List (String × ℤ) → ℤ) (st : Registry)
        (l : List (List (String × ℤ) × OracleOutcome × String)),
      (evalPopulation h st l).2.map Prod.fst = l.map (fun e => e.1)) := by
  refine ⟨?_, dominates_sentinel, ?_, ?_⟩
  · rintro h st p now o (rfl | rfl) <;> rfl
  · rintro arch x hx ⟨a, ha, hlen, hne⟩
    have hdom : deapDominates objDirs a.fit x.fit = true := by
      rw [hx]; exact dominates_sentinel a.fit hlen hne
    have hany : (arch.any fun a => deapDominates objDirs a.fit x.fit) = true :=
      List.any_eq_true.2 ⟨a, ha, hdom⟩
    simp [archiveUpdate, hany]
  · intro h st l
    induction l generalizing st with
    | nil => rfl
    | cons e rest ih =>
        obtain ⟨p, o, now⟩ := e
        simp [evalPopulation, ih]

/-- Claim C5, witness: a concrete failed evaluation returns the sentinel and
leaves the registry untouched, and updating an archive holding one member
with valid (finite) objectives by a sentinel-fitness individual with a
different genome leaves the archive unchanged. -/
theorem C5_failure_sentinel_behavior_witness :
    ((Ind.mk (indToParams [3, 900, 8, 2, 2, 800, 18, 1]) sentinelFit).fit
        = sentinelFit)
      ∧ (∃ a ∈ [Ind.mk (indToParams [3, 800, 8, 2, 2, 800, 18, 1])
            [.rat 10, .rat 5, .rat 7, .rat 100, .rat 4]],
          a.fit.length = 5 ∧ a.fit ≠ sentinelFit)
      ∧ evalStep (fun _ => 0) regInit (indToParams [3, 900, 8, 2, 2, 800, 18, 1])
          OracleOutcome.failNone "t" = (regInit, sentinelFit)
      ∧ archiveUpdate
          [Ind.mk (indToParams [3, 800, 8, 2, 2, 800, 18, 1])
            [.rat 10, .rat 5, .rat 7, .rat 100, .rat 4]]
          (Ind.mk (indToParams [3, 900, 8, 2, 2, 800, 18, 1]) sentinelFit)
        = [Ind.mk (indToParams [3, 800, 8, 2, 2, 800, 18, 1])
            [.rat 10, .rat 5, .rat 7, .rat 100, .rat 4]] := by
  refine ⟨rfl, by decide, ?_, ?_⟩
  · exact C5_failure_sentinel_behavior.1 _ _ _ _ _ (Or.inl rfl)
  · exact C5_failure_sentinel_behavior.2.2.1 _ _ rfl
      ⟨Ind.mk (indToParams [3, 800, 8, 2, 2, 800, 18, 1])
          [.rat 10, .rat 5, .rat 7, .rat 100, .rat 4],
        by simp, by decide, by decide⟩

/-! ## Randomness, variation operators (C6, C7) -/

/-- `random.randint(lo, hi)` driven by one uniform draw `d` from `[0, 1)`:
the inclusive-range sample `lo + floor(d * (hi - lo + 1))`. -/
def randIntDraw (lo hi : ℤ) (d : ℚ) : ℤ :=
  lo + Rat.floor (d * ((hi - lo + 1 : ℤ) : ℚ))

/-- Gene-by-gene loop of `_mutate_individual` (lines 185-190), iterating the
bounds entries against the genome positions.  `draws` is the RNG stream and
`pos` the cursor: each gene consumes one gate draw (`random.random() <
mutation_rate`) and, when the gate fires, one further draw for
`random.randint` within that gene's own bound; genes beyond the bounds list
pass through (the source's loop only touches indices it enumerates). -/
def mutGenes (rate : ℚ) (draws : ℕ → ℚ) :
    List (String × ℤ × ℤ) → List ℤ → ℕ → List ℤ × ℕ
  | [], rest, pos => (rest, pos)
  | _ :: _, [], pos => ([], pos)
  | (_, lo, hi) :: bs, x :: xs, pos =>
      if draws pos < rate then
        let r := mutGenes rate draws bs xs (pos + 2)
        (randIntDraw lo hi (draws (pos + 1)) :: r.1, r.2)
      else
        let r := mutGenes rate draws bs xs (pos + 1)
        (x :: r.1, r.2)

/-- `GeneticOptimizer._mutate_individual`: the per-gene loop over the
optimizer's `parameter_bounds`. -/
def mutateIndividual (rate : ℚ) (draws : ℕ → ℚ) (g : List ℤ) (pos : ℕ) :
    List ℤ × ℕ :=
  mutGenes rate draws parameterBounds g pos

/-- The per-gene attribute samplers registered in `_setup_genetic_algorithm`
(`attr_varOfWork` .. `attr_yearsModelWorking`), applied in order by
`tools.initCycle`: one `randint` per gene over that gene's bound. -/
def sampleGo (draws : ℕ → ℚ) : List (String × ℤ × ℤ) → ℕ → List ℤ
  | [], _ => []
  | (_, lo, hi) :: bs, i => randIntDraw lo hi (draws i) :: sampleGo draws bs (i + 1)

/-- One freshly sampled individual (`toolbox.individual`). -/
def sampleRandom (draws : ℕ → ℚ) : List ℤ := sampleGo draws parameterBounds 0

/-- Position-wise segment swap `[lo, hi)` between two equal-length genomes
(the slice assignment of DEAP's `cxTwoPoint`), tracked by position `i`. -/
def swapSegGo (i lo hi : ℕ) : List ℤ → List ℤ → List ℤ × List ℤ
  | [], ys => ([], ys)
  | x :: xs, [] => (x :: xs, [])
  | x :: xs, y :: ys =>
      let r := swapSegGo (i + 1) lo hi xs ys
      if lo ≤ i ∧ i < hi then (y :: r.1, x :: r.2) else (x :: r.1, y :: r.2)

/-- `deap.tools.cxTwoPoint`, the crossover registered as `toolbox.mate`
(library source not part of this repository; embedded from its published
definition): draw `cxpoint1 = randint(1, size)` and
`cxpoint2 = randint(1, size - 1)`, bump `cxpoint2` past `cxpoint1` when not
below it (swapping them otherwise), then exchange the gene segment
`[cxpoint1, cxpoint2)` between the two genomes. -/
def cxTwoPoint (draws : ℕ → ℚ) (pos : ℕ) (a b : List ℤ) :
    (List ℤ × List ℤ) × ℕ :=
  let size := min a.length b.length
  let c1 := (randIntDraw 1 (size : ℤ) (draws pos)).toNat
  let c2 := (randIntDraw 1 ((size : ℤ) - 1) (draws (pos + 1))).toNat
  let pts := if c1 ≤ c2 then (c1, c2 + 1) else (c2, c1)
  (swapSegGo 0 pts.1 pts.2 a b, pos + 2)

/-- One offspring of `deap.algorithms.varOr`, the offspring generator used
by the `algorithms.eaMuPlusLambda` call in `optimize` (library source not
part of this repository; embedded from its published definition): a single
operator-selection draw decides between crossover (below `cxpb`, keeping the
first child), mutation (between `cxpb` and `cxpb + mutpb`, applied to one
chosen parent), and plain reproduction.  `optimize` passes `cxpb =
crossover_rate` and `mutpb = mutation_rate`. -/
def varOrOne (cxpb mutpb rate : ℚ) (draws : ℕ → ℚ) (pos : ℕ)
    (p1 p2 : List ℤ) : List ℤ × ℕ :=
  let r := draws pos
  if r < cxpb then
    let c := cxTwoPoint draws (pos + 1) p1 p2
    (c.1.1, c.2)
  else if r < cxpb + mutpb then
    mutateIndividual rate draws p1 (pos + 1)
  else (p1, pos + 1)

/-- Bounds check: the genome has exactly one gene per bounds entry and each
gene lies within its inclusive bound. -/
def inBoundsB : List (String × ℤ × ℤ) → List ℤ → Bool
  | [], [] => true
  | (_, lo, hi) :: bs, x :: xs =>
      decide (lo ≤ x) && decide (x ≤ hi) && inBoundsB bs xs
  | _, _ => false

/-- Well-formedness of a bounds list: every `lo ≤ hi`. -/
def boundsWf : List (String × ℤ × ℤ) → Bool
  | [] => true
  | (_, lo, hi) :: bs => decide (lo ≤ hi) && boundsWf bs

theorem randIntDraw_mem (lo hi : ℤ) (d : ℚ) (hlo : lo ≤ hi) (h0 : 0 ≤ d)
    (h1 : d < 1) : lo ≤ randIntDraw lo hi d ∧ randIntDraw lo hi d ≤ hi := by
  unfold randIntDraw
  rw [show Rat.floor (d * ((hi - lo + 1 : ℤ) : ℚ))
      = ⌊d * ((hi - lo + 1 : ℤ) : ℚ)⌋ by rw [Rat.floor_def', Rat.floor_def]]
  have hn : (0 : ℤ) < hi - lo + 1 := by omega
  have hq : (0 : ℚ) < ((hi - lo + 1 : ℤ) : ℚ) := by exact_mod_cast hn
  have hfl : (0 : ℤ) ≤ ⌊d * ((hi - lo + 1 : ℤ) : ℚ)⌋ :=
    Int.floor_nonneg.2 (mul_nonneg h0 hq.le)
  have hlt : d * ((hi - lo + 1 : ℤ) : ℚ) < ((hi - lo + 1 : ℤ) : ℚ) := by
    calc d * ((hi - lo + 1 : ℤ) : ℚ) < 1 * ((hi - lo + 1 : ℤ) : ℚ) :=
          mul_lt_mul_of_pos_right h1 hq
      _ = ((hi - lo + 1 : ℤ) : ℚ) := one_mul _
  have hfu : ⌊d * ((hi - lo + 1 : ℤ) : ℚ)⌋ < hi - lo + 1 := Int.floor_lt.2 hlt
  omega

theorem mutGenes_inBounds (rate : ℚ) (draws : ℕ → ℚ)
    (hd : ∀ k, 0 ≤ draws k ∧ draws k < 1) :
    ∀ (bs : List (String × ℤ × ℤ)) (g : List ℤ) (pos : ℕ),
      boundsWf bs = true → inBoundsB bs g = true →
      inBoundsB bs (mutGenes rate draws bs g pos).1 = true := by
  intro bs
  induction bs with
  | nil =>
      intro g pos _ hg
      cases g with
      | nil => simp [mutGenes, inBoundsB]
      | cons x xs => simp [inBoundsB] at hg
  | cons bhd bs ih =>
      obtain ⟨nm, lo, hi⟩ := bhd
      intro g pos hwf hg
      cases g with
      | nil => simp [inBoundsB] at hg
      | cons x xs =>
          simp only [inBoundsB, Bool.and_eq_true, decide_eq_true_eq] at hg
          simp only [boundsWf, Bool.and_eq_true, decide_eq_true_eq] at hwf
          by_cases hgate : draws pos < rate
          · have hv := randIntDraw_mem lo hi (draws (pos + 1)) hwf.1
              (hd (pos + 1)).1 (hd (pos + 1)).2
            simp only [mutGenes, hgate, if_true, inBoundsB, Bool.and_eq_true,
              decide_eq_true_eq]
            exact ⟨⟨hv.1, hv.2⟩, ih xs (pos + 2) hwf.2 hg.2⟩
          · simp only [mutGenes, hgate, if_false, inBoundsB, Bool.and_eq_true,
              decide_eq_true_eq]
            exact ⟨hg.1, ih xs (pos + 1) hwf.2 hg.2⟩

theorem sampleGo_inBounds (draws : ℕ → ℚ)
    (hd : ∀ k, 0 ≤ draws k ∧ draws k < 1) :
    ∀ (bs : List (String × ℤ × ℤ)) (pos : ℕ), boundsWf bs = true →
      inBoundsB bs (sampleGo draws bs pos) = true := by
  intro bs
  induction bs with
  | nil => intro pos _; rfl
  | cons bhd bs ih =>
      obtain ⟨nm, lo, hi⟩ := bhd
      intro pos hwf
      simp only [boundsWf, Bool.and_eq_true, decide_eq_true_eq] at hwf
      have hv := randIntDraw_mem lo hi (draws pos) hwf.1 (hd pos).1 (hd pos).2
      simp only [sampleGo, inBoundsB, Bool.and_eq_true, decide_eq_true_eq]
      exact ⟨⟨hv.1, hv.2⟩, ih (pos + 1) hwf.2⟩

theorem swapSegGo_inBounds :
    ∀ (bs : List (String × ℤ × ℤ)) (a b : List ℤ) (i lo hi : ℕ),
      inBoundsB bs a = true → inBoundsB bs b = true →
      inBoundsB bs (swapSegGo i lo hi a b).1 = true
        ∧ inBoundsB bs (swapSegGo i lo hi a b).2 = true := by
  intro bs
  induction bs with
  | nil =>
      intro a b i lo hi ha hb
      cases a with
      | nil =>
          cases b with
          | nil => exact ⟨rfl, rfl⟩
          | cons y ys => simp [inBoundsB] at hb
      | cons x xs => simp [inBoundsB] at ha
  | cons bhd bs ih =>
      obtain ⟨nm, blo, bhi⟩ := bhd
      intro a b i lo hi ha hb
      cases a with
      | nil => simp [inBoundsB] at ha
      | cons x xs =>
          cases b with
          | nil => simp [inBoundsB] at hb
          | cons y ys =>
              simp only [inBoundsB, Bool.and_eq_true, decide_eq_true_eq]
                at ha hb
              have hr := ih xs ys (i + 1) lo hi ha.2 hb.2
              by_cases hc : lo ≤ i ∧ i < hi
              · simp only [swapSegGo, hc, if_true, inBoundsB,
                  Bool.and_eq_true, decide_eq_true_eq]
                exact ⟨⟨hb.1, hr.1⟩, ⟨ha.1, hr.2⟩⟩
              · simp only [swapSegGo, hc, if_false, inBoundsB,
                  Bool.and_eq_true, decide_eq_true_eq]
                exact ⟨⟨ha.1, hr.1⟩, ⟨hb.1, hr.2⟩⟩

/-- Claim C7: every genome the system produces stays inside the declared
inclusive bounds of `parameter_bounds` — initial random sampling draws each
gene from its own inclusive range, the custom mutation resamples genes only
within their own bound, and two-point crossover only exchanges same-position
segments, so both children inherit per-gene bounds from their parents. -/
theorem C7_all_produced_genomes_in_bounds :
    (∀ draws : ℕ → ℚ, (∀ k, 0 ≤ draws k ∧ draws k < 1) →
      inBoundsB parameterBounds (sampleRandom draws) = true)
    ∧ (∀ (rate : ℚ) (draws : ℕ → ℚ) (g : List ℤ) (pos : ℕ),
        (∀ k, 0 ≤ draws k ∧ draws k < 1) →
        inBoundsB parameterBounds g = true →
        inBoundsB parameterBounds (mutateIndividual rate draws g pos).1 = true)
    ∧ (∀ (draws : ℕ → ℚ) (pos : ℕ) (a b : List ℤ),
        inBoundsB parameterBounds a = true →
        inBoundsB parameterBounds b = true →
        inBoundsB parameterBounds (cxTwoPoint draws pos a b).1.1 = true
          ∧ inBoundsB parameterBounds (cxTwoPoint draws pos a b).1.2 = true) := by
  refine ⟨?_, ?_, ?_⟩
  · intro draws hd
    exact sampleGo_inBounds draws hd parameterBounds 0 (by decide)
  · intro rate draws g pos hd hg
    exact mutGenes_inBounds rate draws hd parameterBounds g pos (by decide) hg
  · intro draws pos a b ha hb
    exact swapSegGo_inBounds parameterBounds a b 0 _ _ ha hb

theorem randIntDraw_zero (lo hi : ℤ) : randIntDraw lo hi 0 = lo := by
  unfold randIntDraw
  rw [zero_mul,
    show Rat.floor (0 : ℚ) = ⌊(0 : ℚ)⌋ by rw [Rat.floor_def', Rat.floor_def]]
  simp

/-- Claim C7, witness: with the constant draw zero, the freshly sampled
individual, a mutated copy of a concrete in-bounds genome, and both
crossover children of two concrete in-bounds genomes all verify the bounds
check; the sampled individual evaluates to the concrete genome of all lower
bounds `[3, 800, 8, 2, 2, 800, 18, 1]`. -/
theorem C7_all_produced_genomes_in_bounds_witness :
    (∀ k : ℕ, 0 ≤ (fun _ : ℕ => (0 : ℚ)) k
        ∧ (fun _ : ℕ => (0 : ℚ)) k < 1)
      ∧ inBoundsB parameterBounds [3, 800, 8, 2, 2, 800, 18, 1] = true
      ∧ inBoundsB parameterBounds [3, 1200, 10, 4, 4, 1000, 20, 1] = true
      ∧ inBoundsB parameterBounds
          (sampleRandom (fun _ : ℕ => (0 : ℚ))) = true
      ∧ sampleRandom (fun _ : ℕ => (0 : ℚ)) = [3, 800, 8, 2, 2, 800, 18, 1]
      ∧ inBoundsB parameterBounds
          (mutateIndividual (1 / 10) (fun _ : ℕ => (0 : ℚ))
            [3, 800, 8, 2, 2, 800, 18, 1] 0).1 = true
      ∧ inBoundsB parameterBounds
          (cxTwoPoint (fun _ : ℕ => (0 : ℚ)) 0
            [3, 800, 8, 2, 2, 800, 18, 1] [3, 1200, 10, 4, 4, 1000, 20, 1]).1.1
        = true
      ∧ inBoundsB parameterBounds
          (cxTwoPoint (fun _ : ℕ => (0 : ℚ)) 0
            [3, 800, 8, 2, 2, 800, 18, 1] [3, 1200, 10, 4, 4, 1000, 20, 1]).1.2
        = true := by
  have hd : ∀ k : ℕ, 0 ≤ (fun _ : ℕ => (0 : ℚ)) k
      ∧ (fun _ : ℕ => (0 : ℚ)) k < 1 := by
    intro k
    constructor <;> norm_num
  refine ⟨hd, by decide, by decide, ?_, ?_, ?_, ?_, ?_⟩
  · exact C7_all_produced_genomes_in_bounds.1 _ hd
  · simp [sampleRandom, sampleGo, parameterBounds, randIntDraw_zero]
  · exact C7_all_produced_genomes_in_bounds.2.1 _ _ _ 0 hd (by decide)
  · exact (C7_all_produced_genomes_in_bounds.2.2 _ 0 _ _ (by decide)
      (by decide)).1
  · exact (C7_all_produced_genomes_in_bounds.2.2 _ 0 _ _ (by decide)
      (by decide)).2

/-- Claim C6, counterexample.  In the variation pipeline of `optimize`
(DEAP `eaMuPlusLambda`, i.e. `varOr` with `mutpb = mutation_rate`), a
per-individual operator draw gates mutation: with the source's default rates
(`crossover_rate = 7/10`, `mutation_rate = 1/10`) and an operator draw of
`9/10`, the offspring is a plain clone and no gene is resampled — even
though the very next draws of the same stream, fed directly to
`_mutate_individual`, fire every per-gene gate and change the genome.  So a
genome's genes are not resampled with probability `mutation_rate` in the
pipeline; a per-individual gate applies first. -/
theorem C6_pipeline_gates_mutation_per_individual :
    (varOrOne (7 / 10) (1 / 10) (1 / 10)
        (fun n => if n = 0 then (9 : ℚ) / 10 else 0) 0
        [3, 1200, 10, 4, 4, 1000, 20, 1] [3, 1200, 10, 4, 4, 1000, 20, 1]).1
      = [3, 1200, 10, 4, 4, 1000, 20, 1]
    ∧ (mutateIndividual (1 / 10)
        (fun n => if n = 0 then (9 : ℚ) / 10 else 0)
        [3, 1200, 10, 4, 4, 1000, 20, 1] 1).1
      = [3, 800, 8, 2, 2, 800, 18, 1]
    ∧ ([3, 800, 8, 2, 2, 800, 18, 1] : List ℤ)
      ≠ [3, 1200, 10, 4, 4, 1000, 20, 1] := by
  refine ⟨?_, ?_, by decide⟩
  · norm_num [varOrOne]
  · norm_num [mutateIndividual, mutGenes, parameterBounds, randIntDraw_zero]

theorem mutGenes_no_fire (rate : ℚ) (draws : ℕ → ℚ)
    (h : ∀ k, rate ≤ draws k) :
    ∀ (bs : List (String × ℤ × ℤ)) (g : List ℤ) (pos : ℕ),
      (mutGenes rate draws bs g pos).1 = g := by
  intro bs
  induction bs with
  | nil => intro g pos; rfl
  | cons bhd bs ih =>
      obtain ⟨nm, lo, hi⟩ := bhd
      intro g pos
      cases g with
      | nil => rfl
      | cons x xs =>
          simp only [mutGenes, if_neg (not_lt.2 (h pos))]
          rw [ih xs (pos + 1)]

/-- Claim C6, amended: `_mutate_individual` itself is per-gene — when
invoked, each gene's own gate draw below `mutation_rate` resamples that gene
within its own inclusive bound, and a gate draw at or above the rate leaves
it unchanged, independently of the other genes; but the generation pipeline
(`eaMuPlusLambda`, which calls `varOr` with `mutpb = mutation_rate`) routes
an offspring through `_mutate_individual` only when its single per-offspring
operator draw falls in the mutation band `[cxpb, cxpb + mutpb)`; offspring
taking the reproduction branch pass through with no gene resampled, so a
per-individual gate is applied before the per-gene rate. -/
theorem C6_mutation_per_gene_inside_per_individual_gate :
    (∀ (cxpb mutpb rate : ℚ) (draws : ℕ → ℚ) (pos : ℕ) (p1 p2 : List ℤ),
        cxpb ≤ draws pos → draws pos < cxpb + mutpb →
        varOrOne cxpb mutpb rate draws pos p1 p2
          = mutateIndividual rate draws p1 (pos + 1))
    ∧ (∀ (cxpb mutpb rate : ℚ) (draws : ℕ → ℚ) (pos : ℕ) (p1 p2 : List ℤ),
        0 ≤ mutpb → cxpb + mutpb ≤ draws pos →
        varOrOne cxpb mutpb rate draws pos p1 p2 = (p1, pos + 1))
    ∧ (∀ (rate : ℚ) (draws : ℕ → ℚ) (g : List ℤ) (pos : ℕ),
        (∀ k, rate ≤ draws k) →
        (mutateIndividual rate draws g pos).1 = g)
    ∧ (∀ (rate : ℚ) (draws : ℕ → ℚ) (nm : String) (lo hi : ℤ)
        (bs : List (String × ℤ × ℤ)) (x : ℤ) (xs : List ℤ) (pos : ℕ),
        (draws pos < rate →
          (mutGenes rate draws ((nm, lo, hi) :: bs) (x :: xs) pos).1
            = randIntDraw lo hi (draws (pos + 1))
                :: (mutGenes rate draws bs xs (pos + 2)).1)
          ∧ (rate ≤ draws pos →
            (mutGenes rate draws ((nm, lo, hi) :: bs) (x :: xs) pos).1
              = x :: (mutGenes rate draws bs xs (pos + 1)).1)) := by
  refine ⟨?_, ?_, ?_, ?_⟩
  · intro cxpb mutpb rate draws pos p1 p2 h1 h2
    simp only [varOrOne]
    rw [if_neg (not_lt.2 h1), if_pos h2]
  · intro cxpb mutpb rate draws pos p1 p2 hm h
    have h1 : ¬(draws pos < cxpb) := not_lt.2 (by linarith)
    have h2 : ¬(draws pos < cxpb + mutpb) := not_lt.2 h
    simp only [varOrOne]
    rw [if_neg h1, if_neg h2]
  · intro rate draws g pos h
    exact mutGenes_no_fire rate draws h parameterBounds g pos
  · intro rate draws nm lo hi bs x xs pos
    constructor
    · intro hfire
      simp only [mutGenes, if_pos hfire]
    · intro hskip
      simp only [mutGenes, if_neg (not_lt.2 hskip)]

/-- Claim C6, witness: the amended theorem applied at the source's default
rates.  An operator draw of three quarters falls in the mutation band, so the
offspring is exactly a mutation of the first parent; an operator draw of
nine tenths falls in the reproduction band, so the offspring is returned
unchanged; with the rate at zero no gene ever fires; and with rate one tenth
a zero gate draw resamples the head gene while a one-half gate draw keeps
it. -/
theorem C6_mutation_per_gene_inside_per_individual_gate_witness :
    ((7 : ℚ) / 10 ≤ (fun _ : ℕ => (3 : ℚ) / 4) 0
        ∧ (fun _ : ℕ => (3 : ℚ) / 4) 0 < 7 / 10 + 1 / 10)
      ∧ varOrOne (7 / 10) (1 / 10) (1 / 10) (fun _ : ℕ => (3 : ℚ) / 4) 0
          [3, 800, 8, 2, 2, 800, 18, 1] [3, 1200, 10, 4, 4, 1000, 20, 1]
        = mutateIndividual (1 / 10) (fun _ : ℕ => (3 : ℚ) / 4)
            [3, 800, 8, 2, 2, 800, 18, 1] 1
      ∧ ((0 : ℚ) ≤ 1 / 10 ∧ (7 : ℚ) / 10 + 1 / 10 ≤ (fun _ : ℕ => (9 : ℚ) / 10) 0)
      ∧ varOrOne (7 / 10) (1 / 10) (1 / 10) (fun _ : ℕ => (9 : ℚ) / 10) 0
          [3, 800, 8, 2, 2, 800, 18, 1] [3, 1200, 10, 4, 4, 1000, 20, 1]
        = ([3, 800, 8, 2, 2, 800, 18, 1], 1)
      ∧ (∀ k : ℕ, (0 : ℚ) ≤ (fun _ : ℕ => (1 : ℚ) / 2) k)
      ∧ (mutateIndividual 0 (fun _ : ℕ => (1 : ℚ) / 2)
          [3, 800, 8, 2, 2, 800, 18, 1] 0).1 = [3, 800, 8, 2, 2, 800, 18, 1] := by
  refine ⟨⟨by norm_num, by norm_num⟩, ?_, ⟨by norm_num, by norm_num⟩, ?_, ?_, ?_⟩
  · exact C6_mutation_per_gene_inside_per_individual_gate.1 _ _ _ _ 0 _ _
      (by norm_num) (by norm_num)
  · exact C6_mutation_per_gene_inside_per_individual_gate.2.1 _ _ _ _ 0 _ _
      (by norm_num) (by norm_num)
  · intro k
    norm_num
  · exact C6_mutation_per_gene_inside_per_individual_gate.2.2.1 _ _ _ 0
      (by intro k; norm_num)

/-! ## Persistence (`save_results` / `_load_results`) for C8 -/

/-- A JSON value as produced by `json.dump` and read back by `json.load`
(numbers carry the embedded float domain, which round-trips through Python's
json including the non-standard `Infinity` spellings). -/
inductive JVal where
  | jnull
  | jbool (b : Bool)
  | jnum (v : PVal)
  | jstr (s : String)
  | jarr (l : List JVal)
  | jobj (o : List (String × JVal))

/-- `dict.get(key)` on a decoded JSON object. -/
def jget : JVal → String → Option JVal
  | .jobj o, k => List.lookup k o
  | _, _ => none

/-- A parameter dict as a JSON object (names to integer numbers). -/
def encodeParams (p : List (String × ℤ)) : JVal :=
  .jobj (p.map fun q => (q.1, .jnum (.rat q.2)))

/-- The `fitness` field written by `save_results`: the values tuple when the
fitness is valid, JSON `null` (Python `None`) otherwise. -/
def encodeFit : Option (List PVal) → JVal
  | none => .jnull
  | some l => .jarr (l.map .jnum)

/-- One `{id, parameters, fitness}` entry of the `population` or
`pareto_front` list written by `save_results` (lines 245-267). -/
def encodeEntry (id : String) (p : List (String × ℤ))
    (f : Option (List PVal)) : JVal :=
  .jobj [("id", .jstr id), ("parameters", encodeParams p),
         ("fitness", encodeFit f)]

/-- Reading a parameter object back to named integers, as the analyzer-side
consumers do. -/
def decodeParamList : List (String × JVal) → Option (List (String × ℤ))
  | [] => some []
  | (n, .jnum (.rat q)) :: rest =>
      if q.den = 1 then (decodeParamList rest).map (fun r => (n, q.num) :: r)
      else none
  | _ => none

def decodeParams : JVal → Option (List (String × ℤ))
  | .jobj o => decodeParamList o
  | _ => none

def decodeFitList : List JVal → Option (List PVal)
  | [] => some []
  | .jnum v :: rest => (decodeFitList rest).map (fun r => v :: r)
  | _ => none

def decodeFit : JVal → Option (Option (List PVal))
  | .jnull => some none
  | .jarr l => (decodeFitList l).map some
  | _ => none

/-- Reading one solution entry back as its `{id, parameters, fitness}`
triple (`solution.get("id")`, `solution.get("parameters")`,
`solution.get("fitness")` in `utils/solution_analyzer.py`). -/
def decodeEntry (j : JVal) :
    Option (String × List (String × ℤ) × Option (List PVal)) :=
  match jget j "id" with
  | some (.jstr s) =>
      match jget j "parameters" with
      | some pj =>
          match decodeParams pj with
          | some ps =>
              match jget j "fitness" with
              | some fj => (decodeFit fj).map (fun f => (s, ps, f))
              | none => none
          | none => none
      | none => none
  | _ => none

/-- An individual at save time: its genome list and its fitness values when
valid (`individual.fitness.values if individual.fitness.valid else None`). -/
structure IndSave where
  genome : List ℤ
  fitness : Option (List PVal)

/-- The identifier written for an individual by `save_results`: look its
recomputed parameter-hash up in `solution_ids`, defaulting to `"UNKNOWN"`. -/
def savedId (h : List (String × ℤ) → ℤ) (st : Registry) (g : List ℤ) :
    String :=
  (List.lookup (h (canonKey (indToParams g))) st.ids).getD "UNKNOWN"

def encodeSaved (h : List (String × ℤ) → ℤ) (st : Registry) (i : IndSave) :
    JVal :=
  encodeEntry (savedId h st i.genome) (indToParams i.genome) i.fitness

/-- A `solution_history` record as serialized (the `generation` field is
always `None`). -/
def encodeRec (r : SolRec) : JVal :=
  .jobj [("id", .jstr r.id), ("parameters", encodeParams r.params),
         ("kpis", .jarr (r.kpis.map .jnum)),
         ("timestamp", .jstr r.timestamp), ("generation", .jnull)]

def dirStr : ObjDir → String
  | .maxObj => "maximize"
  | .minObj => "minimize"

/-- The whole `optimization_results.json` object written by `save_results`:
population entries, pareto-front entries, the solution history, the bounds,
the objective directions and the metadata (counts plus hyperparameters). -/
def saveResultsJ (h : List (String × ℤ) → ℤ) (st : Registry)
    (pop pf : List IndSave) (popSize gens : ℕ) (mr cr : ℚ) : JVal :=
  .jobj [("population", .jarr (pop.map (encodeSaved h st))),
         ("pareto_front", .jarr (pf.map (encodeSaved h st))),
         ("solution_history", .jarr (st.history.map encodeRec)),
         ("parameter_bounds", .jobj (parameterBounds.map fun b =>
           (b.1, .jarr [.jnum (.rat b.2.1), .jnum (.rat b.2.2)]))),
         ("objectives", .jobj ((kpiNames.zip objDirs).map fun q =>
           (q.1, .jstr (dirStr q.2)))),
         ("optimization_metadata", .jobj
           [("total_solutions_evaluated", .jnum (.rat st.counter)),
            ("unique_solutions", .jnum (.rat st.ids.length)),
            ("population_size", .jnum (.rat popSize)),
            ("generations", .jnum (.rat gens)),
            ("mutation_rate", .jnum (.rat mr)),
            ("crossover_rate", .jnum (.rat cr))])]

def decodeEntryList :
    List JVal → Option (List (String × List (String × ℤ) × Option (List PVal)))
  | [] => some []
  | j :: rest =>
      match decodeEntry j with
      | some t => (decodeEntryList rest).map (t :: ·)
      | none => none

def decodeEntries (j : JVal) :
    Option (List (String × List (String × ℤ) × Option (List PVal))) :=
  match j with
  | .jarr l => decodeEntryList l
  | _ => none

/-- `results.get("population")` of the reloaded file, decoded to triples. -/
def loadPopulation (j : JVal) := (jget j "population").bind decodeEntries

/-- `results.get("pareto_front")` of the reloaded file, decoded to
triples. -/
def loadParetoFront (j : JVal) := (jget j "pareto_front").bind decodeEntries

theorem decodeParamList_encode (p : List (String × ℤ)) :
    decodeParamList (p.map fun q => (q.1, JVal.jnum (.rat q.2))) = some p := by
  induction p with
  | nil => rfl
  | cons hd tl ih =>
      obtain ⟨n, v⟩ := hd
      simp [decodeParamList, ih, Rat.den_intCast, Rat.num_intCast]

theorem decodeFitList_encode (f : List PVal) :
    decodeFitList (f.map JVal.jnum) = some f := by
  induction f with
  | nil => rfl
  | cons hd tl ih => simp [decodeFitList, ih]

theorem decodeEntry_encode (id : String) (p : List (String × ℤ))
    (f : Option (List PVal)) :
    decodeEntry (encodeEntry id p f) = some (id, p, f) := by
  have hp : decodeParams (encodeParams p) = some p := by
    simp [decodeParams, encodeParams, decodeParamList_encode]
  have hf : decodeFit (encodeFit f) = some f := by
    cases f with
    | none => rfl
    | some l => simp [encodeFit, decodeFit, decodeFitList_encode]
  simp [decodeEntry, encodeEntry, jget, List.lookup, hp, hf]

theorem decodeEntryList_encode (h : List (String × ℤ) → ℤ) (st : Registry)
    (l : List IndSave) :
    decodeEntryList (l.map (encodeSaved h st)) =
      some (l.map fun i => (savedId h st i.genome, indToParams i.genome,
        i.fitness)) := by
  induction l with
  | nil => rfl
  | cons hd tl ih =>
      simp [decodeEntryList, encodeSaved, decodeEntry_encode, ih]

/-- Claim C8: round-trip of the persisted record — for every population and
Pareto front, writing `save_results` and reloading the JSON reconstructs
exactly the same `{id, parameters, fitness}` triple for every individual:
the identifier, all eight parameter name/value pairs, and the fitness values
(or the `None` of an invalid fitness) unchanged. -/
theorem C8_save_load_roundtrips_triples (h : List (String × ℤ) → ℤ)
    (st : Registry) (pop pf : List IndSave) (popSize gens : ℕ) (mr cr : ℚ) :
    loadPopulation (saveResultsJ h st pop pf popSize gens mr cr)
        = some (pop.map fun i =>
            (savedId h st i.genome, indToParams i.genome, i.fitness))
      ∧ loadParetoFront (saveResultsJ h st pop pf popSize gens mr cr)
        = some (pf.map fun i =>
            (savedId h st i.genome, indToParams i.genome, i.fitness)) := by
  constructor
  · simp [loadPopulation, saveResultsJ, jget, List.lookup, decodeEntries,
      decodeEntryList_encode]
  · simp [loadParetoFront, saveResultsJ, jget, List.lookup, decodeEntries,
      decodeEntryList_encode]

/-! ## Embedding of `java_interface.py` (`JavaModelInterface.run_simulation`) -/

/-- What one HTTP POST can come back as, seen from inside the `try` of
`run_simulation`: a response with a status code (whose body decodes to JSON,
or raises on `.json()` — the `none` body), a `requests` timeout, or any
other exception. -/
inductive HttpResult where
  | response (code : ℕ) (body : Option JVal)
  | timeoutErr
  | otherErr

/-- The per-gene defaults of the `iteration_data` dict built by
`run_simulation` (lines 108-117): `parameters.get(name, default)` for each
of the eight genes.  Note `quantityOfSilages` defaults to 17, outside the
optimizer's own bounds. -/
def geneDefaults : List (String × ℤ) :=
  [("varOfWork", 3),
   ("capacityOfMainConveyor", 800),
   ("quantityOfVagonsToSilageAtOnce", 8),
   ("quantityOfVehicleDischargeStations", 2),
   ("numberOfVehicleSilages", 2),
   ("capacityOfVehicleSilages", 800),
   ("quantityOfSilages", 17),
   ("yearsModelWorking", 1)]

/-- `iteration_data`: every gene present in the input keeps its value, every
missing gene is silently replaced by its fixed default. -/
def buildIterationData (p : List (String × ℤ)) : List (String × ℤ) :=
  geneDefaults.map fun g => (g.1, (List.lookup g.1 p).getD g.2)

/-- `JavaModelInterface.run_simulation` (lines 96-137): POST the iteration
data; return the decoded JSON on HTTP 200, `None` on any other status, on a
timeout, or on any other exception (all caught by the `except` clauses — no
exception escapes to the caller). -/
def runSimulation (transport : List (String × ℤ) → HttpResult)
    (p : List (String × ℤ)) : Option JVal :=
  match transport (buildIterationData p) with
  | .response code body =>
      if code = 200 then
        match body with
        | some j => some j
        | none => none
      else none
  | .timeoutErr => none
  | .otherErr => none

theorem lookup_map_keyed {β γ : Type} (f : String → β → γ)
    (l : List (String × β)) (n : String) :
    List.lookup n (l.map fun g => (g.1, f g.1 g.2))
      = (List.lookup n l).map (f n) := by
  induction l with
  | nil => rfl
  | cons hd tl ih =>
      obtain ⟨k, v⟩ := hd
      by_cases hk : (n == k) = true
      · have : n = k := eq_of_beq hk
        subst this
        simp [List.lookup]
      · simp only [List.map_cons, List.lookup,
          Bool.not_eq_true] at ih ⊢
        rw [Bool.not_eq_true] at hk
        simp [hk, ih]

/-- Claim C10: `run_simulation` is total over its transport boundary — for
every input it returns either the decoded JSON body of an HTTP 200 response
or `None` (non-200 status, timeout, body decode failure, or any other
exception); it never raises to its caller.  And the iteration data sent
replaces every gene missing from the input dictionary by its fixed default
while keeping the value of every gene present. -/
theorem C10_run_simulation_total_and_defaults :
    (∀ (t : List (String × ℤ) → HttpResult) (p : List (String × ℤ)),
      runSimulation t p = none
        ∨ ∃ j, runSimulation t p = some j
            ∧ t (buildIterationData p) = .response 200 (some j))
    ∧ (∀ (p : List (String × ℤ)) (n : String) (d : ℤ),
        List.lookup n geneDefaults = some d →
        List.lookup n (buildIterationData p)
          = some ((List.lookup n p).getD d)) := by
  constructor
  · intro t p
    cases ht : t (buildIterationData p) with
    | response code body =>
        by_cases hc : code = 200
        · subst hc
          cases body with
          | none => left; simp [runSimulation, ht]
          | some j =>
              right
              exact ⟨j, by simp [runSimulation, ht], rfl⟩
        · left; simp [runSimulation, ht, hc]
    | timeoutErr => left; simp [runSimulation, ht]
    | otherErr => left; simp [runSimulation, ht]
  · intro p n d hd
    unfold buildIterationData
    rw [lookup_map_keyed (fun n d => (List.lookup n p).getD d) geneDefaults n,
      hd]
    rfl

/-- Claim C10, witness: with an empty parameter dictionary every gene is
missing, and the silo-count gene is sent with its fixed default 17; a
transport that times out makes `run_simulation` return `None`, and a
transport answering HTTP 200 with a decoded body makes it return that
body. -/
theorem C10_run_simulation_total_and_defaults_witness :
    List.lookup "quantityOfSilages" geneDefaults = some 17
      ∧ List.lookup "quantityOfSilages" (buildIterationData [])
        = some ((List.lookup "quantityOfSilages" ([] : List (String × ℤ))).getD 17)
      ∧ List.lookup "quantityOfSilages" (buildIterationData []) = some 17
      ∧ (runSimulation (fun _ => HttpResult.timeoutErr) [] = none
          ∨ ∃ j, runSimulation (fun _ => HttpResult.timeoutErr) [] = some j
              ∧ (fun _ => HttpResult.timeoutErr) (buildIterationData [])
                = HttpResult.response 200 (some j)) := by
  refine ⟨by decide, ?_, by decide, ?_⟩
  · exact C10_run_simulation_total_and_defaults.2 [] _ 17 (by decide)
  · exact C10_run_simulation_total_and_defaults.1 _ []
